import Mathlib

/-!
Shallow embedding of the core of the `ungoliant` corpus-generation pipeline:
the per-language rotating `Writer` (`src/io/writer/writer.rs`) and the
OSCAR-Doc record pipeline (`src/pipeline/doc/oscar_doc.rs`).

Sizes and offsets are modelled as `Nat` (the Rust counters are `usize`/`u64`
and never approach overflow in the modelled logic).  File contents are
modelled as the list of payloads handed to each physical file, in order.
-/

namespace Ungoliant

/-- Embeds `error::Error`.  Only the `Custom` variant is exercised by the
code under `src/`; the other variants are irrelevant to the claims. -/
inductive Error where
  | custom : String → Error
deriving DecidableEq

/-- Embeds `processing::Metadata` restricted to the fields the writer logic
reads and writes (`writer.rs` lines 105-112): `nb_sentences` and `offset`.
The header-derived descriptive fields play no role in any claim.
`Metadata::try_from(headers)` is modelled as always succeeding with the
defaulted fields, which `write_single` then overwrites. -/
structure Metadata where
  nb_sentences : Nat
  offset : Nat
deriving DecidableEq

/-- Embeds `processing::MergedPiece` (fields used in `writer.rs`):
a body string `sentences`, its line count `nb_sentences`, the language
`identification`, and the WARC headers (opaque here, never inspected). -/
structure MergedPiece where
  sentences : String
  nb_sentences : Nat
  identification : String
  headers : List (String × String)
deriving DecidableEq

/-- Appends a batch of items to the last file of a list of files,
creating a first file when none exists. -/
def appendLast {α : Type} : List (List α) → List α → List (List α)
  | [], items => [items]
  | [f], items => [f ++ items]
  | f :: fs, items => f :: appendLast fs items

/-- Modelled from the spec: `TextWriter` (not under `src/`).  It owns the
text stream for one language, counts the bytes written to the current
physical file against the optional `size_limit`, numbers the physical
files, and raises `first_write_on_document` when a write lands in a
freshly created file (spec §3 rotation state, §6 rotation). -/
structure TextWriter where
  sizeLimit : Option Nat
  nbFiles : Nat
  curSize : Nat
  first_write_on_document : Bool
  files : List (List String)
deriving DecidableEq

/-- Modelled from the spec: `TextWriter::new` opens the first physical file
for the language; nothing has been written yet. -/
def TextWriter.new (_dst _lang : String) (size_limit : Option Nat) : TextWriter :=
  { sizeLimit := size_limit
    nbFiles := 1
    curSize := 0
    first_write_on_document := true
    files := [[]] }

/-- Modelled from the spec: the rotation test — the write would push the
current physical file past the configured size budget (spec §6: "when a
language's physical text file would exceed a configured size budget, a new
numbered file begins").  An absent limit means unbounded: no rotation. -/
def TextWriter.willRotate (t : TextWriter) (body : String) : Bool :=
  match t.sizeLimit with
  | some l => decide (t.curSize + body.utf8ByteSize > l)
  | none => false

/-- Modelled from the spec: `TextWriter::write_all`.  If the payload would
exceed the size budget, a new numbered file begins and receives the whole
payload, and `first_write_on_document` is raised; otherwise the payload is
appended to the current file. -/
def TextWriter.write_all (t : TextWriter) (body : String) : TextWriter :=
  if t.willRotate body then
    { t with
      nbFiles := t.nbFiles + 1
      curSize := body.utf8ByteSize
      first_write_on_document := true
      files := t.files ++ [[body]] }
  else
    { t with
      curSize := t.curSize + body.utf8ByteSize
      files := appendLast t.files [body] }

/-- Modelled from the spec: free capacity of the current text file,
indeterminate (`none`) when no size limit is configured. -/
def TextWriter.get_free_space (t : TextWriter) : Option Nat :=
  t.sizeLimit.map (fun l => l - t.curSize)

/-- Modelled from the spec: `MetaWriter` (not under `src/`): the JSON-Lines
metadata stream for one language, with its own file numbering. -/
structure MetaWriter where
  nbFiles : Nat
  files : List (List Metadata)
deriving DecidableEq

/-- Modelled from the spec: `MetaWriter::new` opens the first metadata file. -/
def MetaWriter.new (_dst _lang : String) : MetaWriter :=
  { nbFiles := 1, files := [[]] }

/-- Modelled from the spec: `MetaWriter::create_next_file` rotates the
metadata stream to the next numbered file. -/
def MetaWriter.create_next_file (m : MetaWriter) : MetaWriter :=
  { nbFiles := m.nbFiles + 1, files := m.files ++ [[]] }

/-- Modelled from the spec: `MetaWriter::write_all` appends a batch of
metadata entries to the current metadata file. -/
def MetaWriter.write_all (m : MetaWriter) (entries : List Metadata) : MetaWriter :=
  { m with files := appendLast m.files entries }

/-- All metadata entries ever written through a `MetaWriter`, in order. -/
def MetaWriter.allEntries (m : MetaWriter) : List Metadata :=
  m.files.flatten

/-- Modelled from the spec: `processing::PartChunk` (not under `src/`), the
bulk-write unit: one concatenated body (documents separated by a blank
line, each block ending with the separator, as the writer tests observe)
and one metadata batch, one entry per piece, offsets still defaulted. -/
structure PartChunk where
  body : String
  metadata : List Metadata
deriving DecidableEq

/-- Modelled from the spec: `PartChunk::new` merges the pieces.  The Rust
constructor returns a `Result` but the modelled construction cannot fail. -/
def PartChunk.new (pieces : List MergedPiece) : PartChunk :=
  { body := String.join (pieces.map (fun p => p.sentences ++ "\n\n"))
    metadata := pieces.map (fun p => { nb_sentences := p.nb_sentences, offset := 0 }) }

/-- Assigns contiguous offsets to a metadata batch starting at `off`,
each entry advancing the running offset by its `nb_sentences + 1`;
returns the rewritten batch and the final running offset. -/
def bumpList (off : Nat) : List Metadata → List Metadata × Nat
  | [] => ([], off)
  | m :: ms =>
    let rest := bumpList (off + m.nb_sentences + 1) ms
    ({ m with offset := off } :: rest.1, rest.2)

/-- Modelled from the spec: `PartChunk::bump_offsets` renumbers the batch
contiguously from `off` and returns the writer's next offset, or `none`
for an empty batch (the caller logs and keeps its offset). -/
def PartChunk.bump_offsets (pc : PartChunk) (off : Nat) : PartChunk × Option Nat :=
  match pc.metadata with
  | [] => (pc, none)
  | _ =>
    let b := bumpList off pc.metadata
    ({ pc with metadata := b.1 }, some b.2)

/-- Embeds the `Writer` struct of `writer.rs` lines 21-26. -/
structure Writer where
  handle_text : TextWriter
  handle_meta : MetaWriter
  lang : String
  offset : Nat
deriving DecidableEq

/-- Embeds `Writer::new` (`writer.rs` lines 33-44): unconditionally `Ok`,
offset starting at 0. -/
def Writer.new (dst lang : String) (size_limit : Option Nat) : Except Error Writer :=
  .ok
    { handle_text := TextWriter.new dst lang size_limit
      handle_meta := MetaWriter.new dst lang
      lang := lang
      offset := 0 }

/-- Embeds `Writer::write_single` (`writer.rs` lines 84-119).  The Rust
method mutates `&mut self` and returns `Result<(), Error>`; here it
returns the (possibly updated) writer together with the optional error. -/
def Writer.write_single (w : Writer) (piece : MergedPiece) : Writer × Option Error :=
  if piece.identification ≠ w.lang then
    (w, some (Error.custom ("Wrong language. Tried to add a " ++ piece.identification
      ++ " piece into a " ++ w.lang ++ " file.")))
  else
    let ht1 := w.handle_text.write_all piece.sentences
    let step :=
      if ht1.first_write_on_document then
        if ht1.nbFiles > 1 then
          (w.handle_meta.create_next_file, 0,
            { ht1 with first_write_on_document := false })
        else
          (w.handle_meta, w.offset, { ht1 with first_write_on_document := false })
      else
        (w.handle_meta, w.offset, ht1)
    let metadata : Metadata := { nb_sentences := piece.nb_sentences, offset := step.2.1 }
    let offset2 := step.2.1 + metadata.nb_sentences + 1
    let hm2 := step.1.write_all [metadata]
    ({ handle_text := step.2.2, handle_meta := hm2, lang := w.lang, offset := offset2 }, none)

/-- Embeds the individual-path loop of `Writer::write` (`writer.rs` lines
75-78): successive `write_single` calls, stopping at the first error with
the partially updated writer (Rust `?` on `&mut self`). -/
def Writer.writeLoop (w : Writer) : List MergedPiece → Writer × Option Error
  | [] => (w, none)
  | p :: ps =>
    match w.write_single p with
    | (w', none) => w'.writeLoop ps
    | (w', some e) => (w', some e)

/-- Embeds the bulk branch of `Writer::write` (`writer.rs` lines 56-73):
merge the pieces into one `PartChunk`, renumber its offsets from the
writer's current offset (keeping the offset if the batch is empty), then
one text write of the merged body and one metadata write of the batch. -/
def Writer.bulkWrite (w : Writer) (pieces : List MergedPiece) : Writer × Option Error :=
  let pc := PartChunk.new pieces
  let bumped := pc.bump_offsets w.offset
  let w1 :=
    match bumped.2 with
    | some newOffset => { w with offset := newOffset }
    | none => w
  let ht := w1.handle_text.write_all bumped.1.body
  let hm := w1.handle_meta.write_all bumped.1.metadata
  ({ w1 with handle_text := ht, handle_meta := hm }, none)

/-- Embeds `Writer::write` (`writer.rs` lines 47-82).  `whole_size` is
the fold `acc + x.sentences.len()` over the pieces — the byte length of
the bodies (`sentences` is a `String`), compared against the free space,
with an indeterminate free space replaced by `whole_size + 1` so that the
bulk path is taken. -/
def Writer.write (w : Writer) (pieces : List MergedPiece) : Writer × Option Error :=
  let whole_size := pieces.foldl (fun acc x => acc + x.sentences.utf8ByteSize) 0
  if whole_size < (w.handle_text.get_free_space.getD (whole_size + 1)) then
    w.bulkWrite pieces
  else
    w.writeLoop pieces

/-- Modelled from the spec: `identifiers::Identification` (not under
`src/`): a language label and a confidence.  The Rust confidence is an
`f32`; it is modelled as an exact rational, which is what the spec's
"that language's bytes / grand total" denotes. -/
structure Identification where
  label : String
  prob : ℚ
deriving DecidableEq

/-- Embeds `pipeline::doc::document::Document` restricted to what the
claims inspect: the body, the document-level identification, and the
per-line identification sequence (the WARC headers are never read by the
claimed properties). -/
structure Document where
  content : String
  identification : Identification
  line_identifications : List (Option Identification)
deriving DecidableEq

/-- Splits a character list on the newline character, keeping the
segments in order; the result is never empty. -/
def splitNl : List Char → List (List Char)
  | [] => [[]]
  | c :: cs =>
    match splitNl cs with
    | [] => [[c]]
    | l :: ls => if c = '\n' then [] :: l :: ls else (c :: l) :: ls

/-- Embeds Rust `str::lines()` as used on the record body
(`oscar_doc.rs` line 133): split on the newline character, dropping the
empty fragment after a trailing newline (carriage returns are ignored:
no modelled body contains them). -/
def linesOf (s : String) : List String :=
  let parts := (splitNl s.data).map (fun cs => String.mk cs)
  match parts.getLast? with
  | some "" => parts.dropLast
  | _ => parts

/-- Embeds the `lang_count.entry(label).and_modify(add).or_insert(n)`
update of `oscar_doc.rs` lines 149-152, with the `HashMap` modelled as an
insertion-ordered association list. -/
def bumpCount : List (String × Nat) → String → Nat → List (String × Nat)
  | [], label, n => [(label, n)]
  | (l, c) :: rest, label, n =>
    if l = label then (l, c + n) :: rest
    else (l, c) :: bumpCount rest label n

/-- Embeds the identification pass of `oscar_doc.rs` lines 141-159: the
lines are identified left to right; a hard identifier error aborts the
whole pass (the `collect::<Result<_,_>>()?`), an unidentified line
contributes `none`, and an identified line adds its byte count to its
language's accumulator and to the grand total. -/
def identifyLinesAux (identifier : String → Except Error (Option Identification))
    (counts : List (String × Nat)) (total : Nat) :
    List String → Except Error (List (Option Identification) × List (String × Nat) × Nat)
  | [] => .ok ([], counts, total)
  | line :: rest =>
    match identifier line with
    | .error e => .error e
    | .ok id =>
      let acc :=
        match id with
        | some ide => (bumpCount counts ide.label line.utf8ByteSize, total + line.utf8ByteSize)
        | none => (counts, total)
      match identifyLinesAux identifier acc.1 acc.2 rest with
      | .error e => .error e
      | .ok r => .ok (id :: r.1, r.2.1, r.2.2)

/-- Embeds `lang_count.iter().max_by_key(|(_, v)| *v)` (`oscar_doc.rs`
line 163) over the insertion-ordered association list: the last of the
equally-maximum entries is returned, `none` on an empty map. -/
def maxByVal : List (String × Nat) → Option (String × Nat)
  | [] => none
  | (l, c) :: rest =>
    match maxByVal rest with
    | none => some (l, c)
    | some (l', c') => if c' ≥ c then some (l', c') else some (l, c)

/-- Embeds `OscarDoc::process_record` (`oscar_doc.rs` lines 126-185) with
the record reduced to its body string (the headers only feed the produced
document's WARC fields and the drop-logging, neither of which a claim
inspects).  The external identifier is a parameter, per the collaborator
contract `identify(line) -> Identification-or-none, fails on model
error`. -/
def process_record (identifier : String → Except Error (Option Identification))
    (body : String) : Except Error (Option Document) :=
  match identifyLinesAux identifier [] 0 (linesOf body) with
  | .error e => .error e
  | .ok r =>
    match maxByVal r.2.1 with
    | some lc =>
      .ok (some
        { content := body
          identification := { label := lc.1, prob := (lc.2 : ℚ) / (r.2.2 : ℚ) }
          line_identifications := r.1 })
    | none => .ok none

/-- Embeds the per-record result handling of `OscarDoc::process_shard`
(`oscar_doc.rs` lines 101-110): keep `Ok(Some(doc))`, drop `Ok(None)`
and `Err(_)`. -/
def keepResult : Except Error (Option Document) → Option Document
  | .ok (some d) => some d
  | .ok none => none
  | .error _ => none

/-- The record-to-document part of `OscarDoc::process_shard`
(`oscar_doc.rs` lines 100-110) on a shard's record bodies: each record is
processed independently and dropped exactly when `keepResult` yields
`none` (the downstream annotator and trimmer are per-document transforms
and do not affect which records survive). -/
def processRecords (identifier : String → Except Error (Option Identification))
    (records : List String) : List Document :=
  records.filterMap (fun r => keepResult (process_record identifier r))

/-- One step of `OscarDoc::sort_by_lang` (`oscar_doc.rs` lines 190-195):
`ret.entry(label).or_insert(vec).push(document)`, with the `HashMap`
modelled as an insertion-ordered association list. -/
def addToLang : List (String × List Document) → String → Document →
    List (String × List Document)
  | [], lang, d => [(lang, [d])]
  | (l, ds) :: rest, lang, d =>
    if l = lang then (l, ds ++ [d]) :: rest
    else (l, ds) :: addToLang rest lang d

/-- Embeds `OscarDoc::sort_by_lang` (`oscar_doc.rs` lines 188-198). -/
def sort_by_lang (documents : List Document) : List (String × List Document) :=
  documents.foldl (fun acc d => addToLang acc d.identification.label d) []

/-- The list of documents a grouping maps a language to ([] when the
language is absent). -/
def lookupLang : List (String × List Document) → String → List Document
  | [], _ => []
  | (l, ds) :: rest, lang => if l = lang then ds else lookupLang rest lang

/-- Specification vocabulary for claim C2: the metadata batch the spec
demands for a list of pieces written from `start` — offsets contiguous,
each advancing by the piece's `nb_sentences + 1`. -/
def expectedEntries (start : Nat) : List MergedPiece → List Metadata
  | [] => []
  | p :: ps =>
    { nb_sentences := p.nb_sentences, offset := start }
      :: expectedEntries (start + p.nb_sentences + 1) ps

/-- Specification vocabulary for claim C2: the total offset advance of a
batch, the sum over the pieces of `nb_sentences + 1`. -/
def batchTotal : List MergedPiece → Nat
  | [] => 0
  | p :: ps => p.nb_sentences + 1 + batchTotal ps

/-- A fresh English writer with no size limit (free capacity
indeterminate). -/
def wEn : Writer :=
  { handle_text := TextWriter.new "dst" "en" none
    handle_meta := MetaWriter.new "dst" "en"
    lang := "en"
    offset := 0 }

/-- A French piece, used against the English writer `wEn`. -/
def frPiece : MergedPiece :=
  { sentences := "bonjour", nb_sentences := 1, identification := "fr", headers := [] }

/-- An English writer mid-run: size limit 13 bytes, 8 bytes already in
text file 1, offset 2, first-write flag clear, metadata still in file 1. -/
def w0 : Writer :=
  { handle_text :=
      { sizeLimit := some 13, nbFiles := 1, curSize := 8
        first_write_on_document := false, files := [["12345678"]] }
    handle_meta := { nbFiles := 1, files := [[]] }
    lang := "en"
    offset := 2 }

/-- A 4-byte one-line English piece. -/
def pEn : MergedPiece :=
  { sentences := "abcd", nb_sentences := 1, identification := "en", headers := [] }

/-- A fresh English writer with size limit 3 bytes. -/
def w4 : Writer :=
  { handle_text :=
      { sizeLimit := some 3, nbFiles := 1, curSize := 0
        first_write_on_document := false, files := [[]] }
    handle_meta := { nbFiles := 1, files := [[]] }
    lang := "en"
    offset := 0 }

/-- A one-line English piece whose body is 5 bytes long. -/
def p4 : MergedPiece :=
  { sentences := "abcde", nb_sentences := 1, identification := "en", headers := [] }

/-- An English writer with size limit 5 bytes and 4 bytes already in
text file 1: the next 3-byte write rotates. -/
def wRot : Writer :=
  { handle_text :=
      { sizeLimit := some 5, nbFiles := 1, curSize := 4
        first_write_on_document := false, files := [["abcd"]] }
    handle_meta := { nbFiles := 1, files := [[{ nb_sentences := 3, offset := 0 }]] }
    lang := "en"
    offset := 4 }

/-- A 3-byte one-line English piece that overflows `wRot`'s text file. -/
def pRot : MergedPiece :=
  { sentences := "xyz", nb_sentences := 1, identification := "en", headers := [] }

/-- A fresh French writer with no size limit. -/
def wFr : Writer :=
  { handle_text := TextWriter.new "dst" "fr" none
    handle_meta := MetaWriter.new "dst" "fr"
    lang := "fr"
    offset := 0 }

/-- Two French pieces of 2 and 3 sentences. -/
def frPieces : List MergedPiece :=
  [{ sentences := "un\ndeux", nb_sentences := 2, identification := "fr", headers := [] },
   { sentences := "a\nb\nc", nb_sentences := 3, identification := "fr", headers := [] }]

/-- A toy identifier: the line `aa` is French, everything else is
unidentifiable. -/
def idFr : String → Except Error (Option Identification) :=
  fun l => if l = "aa" then .ok (some { label := "fr", prob := 1 }) else .ok none

/-- A toy identifier that identifies nothing. -/
def idNone : String → Except Error (Option Identification) :=
  fun _ => .ok none

/-- A toy identifier that raises a hard error on the line `bad` and
identifies every other line as English. -/
def idErr : String → Except Error (Option Identification) :=
  fun l =>
    if l = "bad" then .error (Error.custom "model failure")
    else .ok (some { label := "en", prob := 1 })

lemma appendLast_flatten {α : Type} (files : List (List α)) (items : List α) :
    (appendLast files items).flatten = files.flatten ++ items := by
  induction files with
  | nil => simp [appendLast]
  | cons f fs ih =>
    cases fs with
    | nil => simp [appendLast]
    | cons g gs => simp [appendLast, ih]

lemma MetaWriter.allEntries_write_all (m : MetaWriter) (es : List Metadata) :
    (m.write_all es).allEntries = m.allEntries ++ es := by
  simp [MetaWriter.write_all, MetaWriter.allEntries, appendLast_flatten]

lemma MetaWriter.allEntries_create_next_file (m : MetaWriter) :
    m.create_next_file.allEntries = m.allEntries := by
  simp [MetaWriter.create_next_file, MetaWriter.allEntries]

lemma TextWriter.willRotate_of_none {t : TextWriter} (h : t.sizeLimit = none)
    (body : String) : t.willRotate body = false := by
  simp [TextWriter.willRotate, h]

lemma MetaWriter.nbFiles_write_all (m : MetaWriter) (es : List Metadata) :
    (m.write_all es).nbFiles = m.nbFiles := rfl

lemma MetaWriter.nbFiles_create_next_file (m : MetaWriter) :
    m.create_next_file.nbFiles = m.nbFiles + 1 := rfl

/-- Full characterization of a successful `write_single` from a clean
state: no error, language and size limit preserved, first-write flag
cleared, the text file count grows by one exactly on rotation and the
metadata file count follows it, the recorded offset is 0 on rotation and
the writer's prior offset otherwise, and the running offset advances from
there by `nb_sentences + 1`. -/
lemma write_single_ok (w : Writer) (p : MergedPiece)
    (hlang : p.identification = w.lang)
    (hNb : 1 ≤ w.handle_text.nbFiles)
    (hclean : w.handle_text.first_write_on_document = false
      ∨ w.handle_text.nbFiles = 1) :
    (w.write_single p).2 = none ∧
    (w.write_single p).1.lang = w.lang ∧
    (w.write_single p).1.handle_text.sizeLimit = w.handle_text.sizeLimit ∧
    (w.write_single p).1.handle_text.first_write_on_document = false ∧
    (w.write_single p).1.handle_text.nbFiles
      = w.handle_text.nbFiles
        + (if w.handle_text.willRotate p.sentences then 1 else 0) ∧
    (w.write_single p).1.handle_meta.nbFiles
      = w.handle_meta.nbFiles
        + (if w.handle_text.willRotate p.sentences then 1 else 0) ∧
    (w.write_single p).1.handle_meta.allEntries
      = w.handle_meta.allEntries
        ++ [{ nb_sentences := p.nb_sentences
              offset := if w.handle_text.willRotate p.sentences then 0 else w.offset }] ∧
    (w.write_single p).1.offset
      = (if w.handle_text.willRotate p.sentences then 0 else w.offset)
        + p.nb_sentences + 1 := by
  have hne : ¬(p.identification ≠ w.lang) := by simp [hlang]
  by_cases hrot : w.handle_text.willRotate p.sentences
  · have hgt : w.handle_text.nbFiles + 1 > 1 := by omega
    simp [Writer.write_single, hne, TextWriter.write_all, hrot, hgt,
      MetaWriter.allEntries_write_all, MetaWriter.allEntries_create_next_file,
      MetaWriter.nbFiles_write_all, MetaWriter.nbFiles_create_next_file]
  · rcases hclean with hf | h1
    · simp [Writer.write_single, hne, TextWriter.write_all, hrot, hf,
        MetaWriter.allEntries_write_all, MetaWriter.nbFiles_write_all]
    · by_cases hf : w.handle_text.first_write_on_document
      · simp [Writer.write_single, hne, TextWriter.write_all, hrot, hf, h1,
          MetaWriter.allEntries_write_all, MetaWriter.nbFiles_write_all]
      · simp [Writer.write_single, hne, TextWriter.write_all, hrot, hf,
          MetaWriter.allEntries_write_all, MetaWriter.nbFiles_write_all]

lemma bumpList_map (ps : List MergedPiece) : ∀ off : Nat,
    bumpList off (ps.map (fun p => ({ nb_sentences := p.nb_sentences, offset := 0 } : Metadata)))
      = (expectedEntries off ps, off + batchTotal ps) := by
  induction ps with
  | nil => intro off; simp [bumpList, expectedEntries, batchTotal]
  | cons p ps ih =>
    intro off
    simp only [List.map_cons, bumpList, ih, expectedEntries, batchTotal, Prod.mk.injEq]
    exact ⟨trivial, by omega⟩

/-- The bulk branch appends the contiguously renumbered metadata batch
and advances the offset by the batch total, erroring never. -/
lemma bulkWrite_spec (w : Writer) (pieces : List MergedPiece) :
    (w.bulkWrite pieces).2 = none ∧
    (w.bulkWrite pieces).1.handle_meta.allEntries
      = w.handle_meta.allEntries ++ expectedEntries w.offset pieces ∧
    (w.bulkWrite pieces).1.offset = w.offset + batchTotal pieces := by
  cases pieces with
  | nil =>
    simp [Writer.bulkWrite, PartChunk.new, PartChunk.bump_offsets,
      MetaWriter.allEntries_write_all, expectedEntries, batchTotal]
  | cons p ps =>
    have hb := bumpList_map (p :: ps) w.offset
    simp only [List.map_cons] at hb
    simp [Writer.bulkWrite, PartChunk.new, PartChunk.bump_offsets, hb,
      MetaWriter.allEntries_write_all]

/-- The individual-path loop on an unbounded writer with a clean flag:
no error, every piece's metadata recorded at the running offset, the
offset advancing by `nb_sentences + 1` per piece. -/
lemma writeLoop_nolimit (pieces : List MergedPiece) : ∀ w : Writer,
    w.handle_text.sizeLimit = none →
    1 ≤ w.handle_text.nbFiles →
    (w.handle_text.first_write_on_document = false ∨ w.handle_text.nbFiles = 1) →
    (∀ p ∈ pieces, p.identification = w.lang) →
    (w.writeLoop pieces).2 = none ∧
    (w.writeLoop pieces).1.handle_meta.allEntries
      = w.handle_meta.allEntries ++ expectedEntries w.offset pieces ∧
    (w.writeLoop pieces).1.offset = w.offset + batchTotal pieces := by
  induction pieces with
  | nil => intro w _ _ _ _; simp [Writer.writeLoop, expectedEntries, batchTotal]
  | cons p ps ih =>
    intro w hlim hNb hclean hlang
    have hrot : w.handle_text.willRotate p.sentences = false :=
      TextWriter.willRotate_of_none hlim p.sentences
    obtain ⟨h1, h2, h3, h4, h5, h6, h7, h8⟩ :=
      write_single_ok w p (hlang p (List.mem_cons_self p ps)) hNb hclean
    have hpair : w.write_single p = ((w.write_single p).1, none) := by
      rw [← h1]
    rw [Writer.writeLoop, hpair]
    obtain ⟨g1, g2, g3⟩ := ih (w.write_single p).1
      (by rw [h3, hlim]) (by rw [h5, hrot]; simpa using hNb)
      (Or.inl h4)
      (fun q hq => by rw [h2]; exact hlang q (List.mem_cons_of_mem p hq))
    refine ⟨g1, ?_, ?_⟩
    · rw [g2, h7, h8, hrot]
      simp [expectedEntries]
    · rw [g3, h8, hrot]
      simp [batchTotal]
      omega

lemma write_eq_bulkWrite_of_none (w : Writer) (pieces : List MergedPiece)
    (hlim : w.handle_text.sizeLimit = none) :
    w.write pieces = w.bulkWrite pieces := by
  have hfs : w.handle_text.get_free_space = none := by
    simp [TextWriter.get_free_space, hlim]
  simp [Writer.write, hfs]

/-- Claim C5: a piece whose identification differs from the writer's
language makes `write_single` return the language-mismatch error
immediately, with the writer state unchanged. -/
theorem write_single_language_mismatch (w : Writer) (p : MergedPiece)
    (h : p.identification ≠ w.lang) :
    w.write_single p =
      (w, some (Error.custom ("Wrong language. Tried to add a " ++ p.identification
        ++ " piece into a " ++ w.lang ++ " file."))) := by
  rw [Writer.write_single, if_pos h]

/-- Claim C5 witness: the French piece against the English writer. -/
theorem write_single_language_mismatch_witness :
    wEn.write_single frPiece =
      (wEn, some (Error.custom ("Wrong language. Tried to add a "
        ++ frPiece.identification ++ " piece into a " ++ wEn.lang ++ " file."))) :=
  write_single_language_mismatch wEn frPiece (by decide)

/-- Claim C1: evaluation at the failing input — the English writer with
indeterminate free capacity takes the bulk path on a French piece and
writes its body and metadata without any identification check, returning
no error. -/
theorem bulk_path_writes_mismatched_piece :
    frPiece.identification ≠ wEn.lang ∧
    (wEn.write [frPiece]).2 = none ∧
    (wEn.write [frPiece]).1.handle_text.files = [["bonjour\n\n"]] ∧
    (wEn.write [frPiece]).1.handle_meta.allEntries
      = [{ nb_sentences := 1, offset := 0 }] := by
  decide

/-- Claim C2: for same-language pieces going into one physical file
(unbounded writer, clean first-write flag), both the bulk path (taken by
`write` since free capacity is indeterminate) and the successive
single-document path assign metadata offsets contiguously from the
writer's current offset — each entry at the previous offset plus the
previous `nb_sentences + 1` — and advance the writer's offset by the sum
over the pieces of `nb_sentences + 1`. -/
theorem write_offsets_contiguous (w : Writer) (pieces : List MergedPiece)
    (hlim : w.handle_text.sizeLimit = none)
    (hNb : 1 ≤ w.handle_text.nbFiles)
    (hclean : w.handle_text.first_write_on_document = false
      ∨ w.handle_text.nbFiles = 1)
    (hlang : ∀ p ∈ pieces, p.identification = w.lang) :
    ((w.write pieces).2 = none ∧
     (w.write pieces).1.handle_meta.allEntries
       = w.handle_meta.allEntries ++ expectedEntries w.offset pieces ∧
     (w.write pieces).1.offset = w.offset + batchTotal pieces) ∧
    ((w.writeLoop pieces).2 = none ∧
     (w.writeLoop pieces).1.handle_meta.allEntries
       = w.handle_meta.allEntries ++ expectedEntries w.offset pieces ∧
     (w.writeLoop pieces).1.offset = w.offset + batchTotal pieces) := by
  constructor
  · rw [write_eq_bulkWrite_of_none w pieces hlim]
    exact bulkWrite_spec w pieces
  · exact writeLoop_nolimit pieces w hlim hNb hclean hlang

/-- Claim C2 witness: the fresh unbounded French writer receiving two
pieces of 2 and 3 sentences records offsets 0 and 3 and ends at offset 7,
on both paths. -/
theorem write_offsets_contiguous_witness :
    ((wFr.write frPieces).2 = none ∧
     (wFr.write frPieces).1.handle_meta.allEntries
       = wFr.handle_meta.allEntries ++ expectedEntries wFr.offset frPieces ∧
     (wFr.write frPieces).1.offset = wFr.offset + batchTotal frPieces) ∧
    ((wFr.writeLoop frPieces).2 = none ∧
     (wFr.writeLoop frPieces).1.handle_meta.allEntries
       = wFr.handle_meta.allEntries ++ expectedEntries wFr.offset frPieces ∧
     (wFr.writeLoop frPieces).1.offset = wFr.offset + batchTotal frPieces) :=
  write_offsets_contiguous wFr frPieces rfl (by decide) (Or.inr rfl) (by decide)

/-- Claim C3 (amended): within one `write_single` call from a state whose
first-write flag is clear (or which is still on its first file) and whose
metadata file index matches the text file index, the text file count
grows by one exactly when the write overflows the size budget, the
metadata file index still matches the text file index afterwards, and the
recorded offset is 0 exactly in that event, the running offset advancing
from there. -/
theorem write_single_rotation_sync (w : Writer) (p : MergedPiece)
    (hlang : p.identification = w.lang)
    (hNb : 1 ≤ w.handle_text.nbFiles)
    (hclean : w.handle_text.first_write_on_document = false
      ∨ w.handle_text.nbFiles = 1)
    (hsync : w.handle_meta.nbFiles = w.handle_text.nbFiles) :
    (w.write_single p).2 = none ∧
    ((w.write_single p).1.handle_text.nbFiles = w.handle_text.nbFiles + 1
      ↔ w.handle_text.willRotate p.sentences = true) ∧
    (w.write_single p).1.handle_meta.nbFiles
      = (w.write_single p).1.handle_text.nbFiles ∧
    (w.write_single p).1.handle_meta.allEntries
      = w.handle_meta.allEntries
        ++ [{ nb_sentences := p.nb_sentences
              offset := if w.handle_text.willRotate p.sentences then 0 else w.offset }] ∧
    (w.write_single p).1.offset
      = (if w.handle_text.willRotate p.sentences then 0 else w.offset)
        + p.nb_sentences + 1 := by
  obtain ⟨h1, _, _, _, h5, h6, h7, h8⟩ := write_single_ok w p hlang hNb hclean
  refine ⟨h1, ?_, ?_, h7, h8⟩
  · rw [h5]
    by_cases hrot : w.handle_text.willRotate p.sentences <;> simp [hrot]
  · rw [h5, h6, hsync]

/-- Claim C3 witness: `wRot` is 4 bytes into a 5-byte file, so the 3-byte
piece rotates the text file, the metadata file follows to index 2, and
the recorded offset resets to 0. -/
theorem write_single_rotation_sync_witness :
    (wRot.write_single pRot).2 = none ∧
    ((wRot.write_single pRot).1.handle_text.nbFiles
        = wRot.handle_text.nbFiles + 1
      ↔ wRot.handle_text.willRotate pRot.sentences = true) ∧
    (wRot.write_single pRot).1.handle_meta.nbFiles
      = (wRot.write_single pRot).1.handle_text.nbFiles ∧
    (wRot.write_single pRot).1.handle_meta.allEntries
      = wRot.handle_meta.allEntries
        ++ [{ nb_sentences := pRot.nb_sentences
              offset := if wRot.handle_text.willRotate pRot.sentences then 0
                else wRot.offset }] ∧
    (wRot.write_single pRot).1.offset
      = (if wRot.handle_text.willRotate pRot.sentences then 0 else wRot.offset)
        + pRot.nb_sentences + 1 :=
  write_single_rotation_sync wRot pRot rfl (by decide) (Or.inl rfl) rfl

/-- Claim C3 counterexample: a bulk write whose merged body (6 bytes,
separator included) overflows the remaining budget although the summed
body bytes (4) fit, rotating the text file to index 2 while the metadata
file stays at index 1 and the offset advances to 4 instead of resetting —
the text file rotates alone. -/
theorem bulk_overflow_rotates_text_alone :
    w0.handle_text.nbFiles = 1 ∧
    w0.handle_meta.nbFiles = 1 ∧
    (w0.write [pEn]).2 = none ∧
    (w0.write [pEn]).1.handle_text.nbFiles = 2 ∧
    (w0.write [pEn]).1.handle_meta.nbFiles = 1 ∧
    (w0.write [pEn]).1.offset = 4 := by
  decide

/-- Claim C4 (amended): `write` takes the bulk path exactly when the
combined byte length of the pieces' `sentences` strings is strictly
smaller than the known free capacity, the indeterminate capacity being
replaced by that byte length plus one so that the bulk path is taken;
otherwise it writes the pieces individually. -/
theorem write_path_decision (w : Writer) (pieces : List MergedPiece) :
    ((pieces.foldl (fun acc x => acc + x.sentences.utf8ByteSize) 0
        < (w.handle_text.get_free_space.getD
            (pieces.foldl (fun acc x => acc + x.sentences.utf8ByteSize) 0 + 1))) →
      w.write pieces = w.bulkWrite pieces) ∧
    (¬ (pieces.foldl (fun acc x => acc + x.sentences.utf8ByteSize) 0
        < (w.handle_text.get_free_space.getD
            (pieces.foldl (fun acc x => acc + x.sentences.utf8ByteSize) 0 + 1))) →
      w.write pieces = w.writeLoop pieces) := by
  constructor
  · intro h
    simp [Writer.write, h]
  · intro h
    simp [Writer.write, h]

/-- Claim C4 witness: the unbounded English writer takes the bulk path on
the French piece; the 3-byte-budget writer `w4` takes the individual path
on the 5-byte piece. -/
theorem write_path_decision_witness :
    wEn.write [frPiece] = wEn.bulkWrite [frPiece] ∧
    w4.write [p4] = w4.writeLoop [p4] :=
  ⟨(write_path_decision wEn [frPiece]).1 (by decide),
   (write_path_decision w4 [p4]).2 (by decide)⟩

/-- Claim C4 counterexample: the combined sentence count of `[p4]` is 1,
strictly below the known free capacity 3, yet `write` takes the
individual path, whose result differs from the bulk path's — the decision
compares the byte length of the bodies (5), not the sentence count. -/
theorem sentence_count_decision_refuted :
    w4.handle_text.get_free_space = some 3 ∧
    ([p4].foldl (fun acc x => acc + x.nb_sentences) 0) = 1 ∧
    w4.write [p4] = w4.writeLoop [p4] ∧
    w4.writeLoop [p4] ≠ w4.bulkWrite [p4] := by
  decide

/-- Claim C10: `Writer::new` never returns an error: for every
destination, language and optional size limit it returns `Ok` with the
offset initialized to 0. -/
theorem writer_new_never_fails (dst lang : String) (size_limit : Option Nat) :
    ∃ w, Writer.new dst lang size_limit = .ok w ∧ w.offset = 0 :=
  ⟨_, rfl, rfl⟩

lemma bumpCount_ne_nil (c : List (String × Nat)) (label : String) (n : Nat) :
    bumpCount c label n ≠ [] := by
  cases c with
  | nil => simp [bumpCount]
  | cons hd tl =>
    obtain ⟨l, cnt⟩ := hd
    by_cases h : l = label <;> simp [bumpCount, h]

lemma maxByVal_eq_none {l : List (String × Nat)} (h : maxByVal l = none) :
    l = [] := by
  cases l with
  | nil => rfl
  | cons a rest =>
    obtain ⟨al, ac⟩ := a
    rw [maxByVal] at h
    cases hr : maxByVal rest with
    | none => rw [hr] at h; exact absurd h (by simp)
    | some q =>
      obtain ⟨ql, qc⟩ := q
      rw [hr] at h
      dsimp only at h
      by_cases hc : qc ≥ ac
      · rw [if_pos hc] at h; exact absurd h (by simp)
      · rw [if_neg hc] at h; exact absurd h (by simp)

lemma maxByVal_mem : ∀ {l : List (String × Nat)} {p : String × Nat},
    maxByVal l = some p → p ∈ l := by
  intro l
  induction l with
  | nil => intro p h; simp [maxByVal] at h
  | cons a rest ih =>
    intro p h
    obtain ⟨al, ac⟩ := a
    rw [maxByVal] at h
    cases hr : maxByVal rest with
    | none =>
      rw [hr] at h
      injection h with h
      exact h ▸ List.mem_cons_self _ _
    | some q =>
      obtain ⟨ql, qc⟩ := q
      rw [hr] at h
      dsimp only at h
      by_cases hc : qc ≥ ac
      · rw [if_pos hc] at h
        injection h with h
        exact h ▸ List.mem_cons_of_mem _ (ih hr)
      · rw [if_neg hc] at h
        injection h with h
        exact h ▸ List.mem_cons_self _ _

lemma maxByVal_le : ∀ {l : List (String × Nat)} {p : String × Nat},
    maxByVal l = some p → ∀ x ∈ l, x.2 ≤ p.2 := by
  intro l
  induction l with
  | nil => intro p h; simp [maxByVal] at h
  | cons a rest ih =>
    intro p h x hx
    obtain ⟨al, ac⟩ := a
    rw [maxByVal] at h
    cases hr : maxByVal rest with
    | none =>
      have hrest : rest = [] := maxByVal_eq_none hr
      subst hrest
      rw [hr] at h
      injection h with h
      rcases List.mem_cons.mp hx with hx | hx
      · subst hx; rw [← h]
      · simp at hx
    | some q =>
      obtain ⟨ql, qc⟩ := q
      rw [hr] at h
      dsimp only at h
      by_cases hc : qc ≥ ac
      · rw [if_pos hc] at h
        injection h with h
        subst h
        rcases List.mem_cons.mp hx with hx | hx
        · subst hx; exact hc
        · exact ih hr x hx
      · rw [if_neg hc] at h
        injection h with h
        subst h
        rcases List.mem_cons.mp hx with hx | hx
        · subst hx; exact le_refl _
        · exact le_trans (ih hr x hx) (le_of_not_le hc)

lemma maxByVal_of_ne {l : List (String × Nat)} (h : l ≠ []) :
    ∃ p, maxByVal l = some p := by
  cases hm : maxByVal l with
  | none => exact absurd (maxByVal_eq_none hm) h
  | some p => exact ⟨p, rfl⟩

lemma identifyLinesAux_counts_ne
    (f : String → Except Error (Option Identification)) :
    ∀ (ls : List String) (c : List (String × Nat)) (t : Nat)
      (ids : List (Option Identification)) (cf : List (String × Nat)) (tf : Nat),
      c ≠ [] → identifyLinesAux f c t ls = .ok (ids, cf, tf) → cf ≠ [] := by
  intro ls
  induction ls with
  | nil =>
    intro c t ids cf tf hc h
    rw [identifyLinesAux] at h
    injection h with h
    rw [show cf = c from congrArg (fun r => r.2.1) h.symm]
    exact hc
  | cons line rest ih =>
    intro c t ids cf tf hc h
    rw [identifyLinesAux] at h
    cases hid : f line with
    | error e => rw [hid] at h; exact absurd h (by simp)
    | ok id =>
      rw [hid] at h
      cases id with
      | none =>
        dsimp only at h
        cases hrec : identifyLinesAux f c t rest with
        | error e => rw [hrec] at h; exact absurd h (by simp)
        | ok r =>
          rw [hrec] at h
          dsimp only at h
          injection h with h
          rw [show cf = r.2.1 from congrArg (fun r => r.2.1) h.symm]
          exact ih c t r.1 r.2.1 r.2.2 hc hrec
      | some ide =>
        dsimp only at h
        cases hrec : identifyLinesAux f
            (bumpCount c ide.label line.utf8ByteSize) (t + line.utf8ByteSize) rest with
        | error e => rw [hrec] at h; exact absurd h (by simp)
        | ok r =>
          rw [hrec] at h
          dsimp only at h
          injection h with h
          rw [show cf = r.2.1 from congrArg (fun r => r.2.1) h.symm]
          exact ih _ _ r.1 r.2.1 r.2.2 (bumpCount_ne_nil c ide.label line.utf8ByteSize) hrec

lemma identifyLinesAux_identified_ne
    (f : String → Except Error (Option Identification)) :
    ∀ (ls : List String) (c : List (String × Nat)) (t : Nat)
      (ids : List (Option Identification)) (cf : List (String × Nat)) (tf : Nat),
      (∃ l ∈ ls, ∃ ide, f l = .ok (some ide)) →
      identifyLinesAux f c t ls = .ok (ids, cf, tf) → cf ≠ [] := by
  intro ls
  induction ls with
  | nil =>
    intro c t ids cf tf hex _
    rcases hex with ⟨l, hl, _⟩
    simp at hl
  | cons line rest ih =>
    intro c t ids cf tf hex h
    rw [identifyLinesAux] at h
    rcases hex with ⟨l, hl, ide, hide⟩
    rcases List.mem_cons.mp hl with hl | hl
    · subst hl
      rw [hide] at h
      dsimp only at h
      cases hrec : identifyLinesAux f
          (bumpCount c ide.label l.utf8ByteSize) (t + l.utf8ByteSize) rest with
      | error e => rw [hrec] at h; exact absurd h (by simp)
      | ok r =>
        rw [hrec] at h
        dsimp only at h
        injection h with h
        rw [show cf = r.2.1 from congrArg (fun r => r.2.1) h.symm]
        exact identifyLinesAux_counts_ne f rest _ _ r.1 r.2.1 r.2.2
          (bumpCount_ne_nil c ide.label l.utf8ByteSize) hrec
    · cases hid : f line with
      | error e => rw [hid] at h; exact absurd h (by simp)
      | ok id =>
        rw [hid] at h
        cases id with
        | none =>
          dsimp only at h
          cases hrec : identifyLinesAux f c t rest with
          | error e => rw [hrec] at h; exact absurd h (by simp)
          | ok r =>
            rw [hrec] at h
            dsimp only at h
            injection h with h
            rw [show cf = r.2.1 from congrArg (fun r => r.2.1) h.symm]
            exact ih c t r.1 r.2.1 r.2.2 ⟨l, hl, ide, hide⟩ hrec
        | some ide2 =>
          dsimp only at h
          cases hrec : identifyLinesAux f
              (bumpCount c ide2.label line.utf8ByteSize) (t + line.utf8ByteSize) rest with
          | error e => rw [hrec] at h; exact absurd h (by simp)
          | ok r =>
            rw [hrec] at h
            dsimp only at h
            injection h with h
            rw [show cf = r.2.1 from congrArg (fun r => r.2.1) h.symm]
            exact identifyLinesAux_counts_ne f rest _ _ r.1 r.2.1 r.2.2
              (bumpCount_ne_nil c ide2.label line.utf8ByteSize) hrec

lemma identifyLinesAux_all_none
    (f : String → Except Error (Option Identification)) :
    ∀ (ls : List String) (c : List (String × Nat)) (t : Nat),
      (∀ l ∈ ls, f l = .ok none) →
      identifyLinesAux f c t ls = .ok (ls.map (fun _ => none), c, t) := by
  intro ls
  induction ls with
  | nil => intro c t _; rw [identifyLinesAux]; rfl
  | cons line rest ih =>
    intro c t h
    rw [identifyLinesAux, h line (List.mem_cons_self line rest)]
    dsimp only
    rw [ih c t (fun l hl => h l (List.mem_cons_of_mem line hl))]
    rfl

lemma identifyLinesAux_error
    (f : String → Except Error (Option Identification)) :
    ∀ (ls : List String) (c : List (String × Nat)) (t : Nat),
      (∃ l ∈ ls, ∃ e, f l = .error e) →
      ∃ e', identifyLinesAux f c t ls = .error e' := by
  intro ls
  induction ls with
  | nil =>
    intro c t hex
    rcases hex with ⟨l, hl, _⟩
    simp at hl
  | cons line rest ih =>
    intro c t hex
    rcases hex with ⟨l, hl, e, he⟩
    rcases List.mem_cons.mp hl with hl | hl
    · subst hl
      exact ⟨e, by rw [identifyLinesAux, he]⟩
    · cases hid : f line with
      | error e2 => exact ⟨e2, by rw [identifyLinesAux, hid]⟩
      | ok id =>
        cases id with
        | none =>
          obtain ⟨e', he'⟩ := ih c t ⟨l, hl, e, he⟩
          exact ⟨e', by rw [identifyLinesAux, hid]; dsimp only; rw [he']⟩
        | some ide =>
          obtain ⟨e', he'⟩ := ih
            (bumpCount c ide.label line.utf8ByteSize) (t + line.utf8ByteSize)
            ⟨l, hl, e, he⟩
          exact ⟨e', by rw [identifyLinesAux, hid]; dsimp only; rw [he']⟩

lemma processRecords_append (f : String → Except Error (Option Identification))
    (rs1 rs2 : List String) :
    processRecords f (rs1 ++ rs2) = processRecords f rs1 ++ processRecords f rs2 := by
  simp [processRecords]

lemma processRecords_cons_none (f : String → Except Error (Option Identification))
    (body : String) (rs : List String)
    (h : keepResult (process_record f body) = none) :
    processRecords f (body :: rs) = processRecords f rs := by
  simp [processRecords, List.filterMap_cons, h]

/-- Claim C6: a record with at least one identifiable line yields a
document whose language has the maximum accumulated byte count over the
record's identified lines, with confidence equal to that language's bytes
divided by the grand total of identified bytes. -/
theorem process_record_picks_max_language
    (identifier : String → Except Error (Option Identification)) (body : String)
    (ids : List (Option Identification)) (counts : List (String × Nat)) (total : Nat)
    (haux : identifyLinesAux identifier [] 0 (linesOf body) = .ok (ids, counts, total))
    (hline : ∃ l ∈ linesOf body, ∃ ide, identifier l = .ok (some ide)) :
    ∃ lab cnt, (lab, cnt) ∈ counts ∧ (∀ x ∈ counts, x.2 ≤ cnt) ∧
      process_record identifier body =
        .ok (some
          { content := body
            identification := { label := lab, prob := (cnt : ℚ) / (total : ℚ) }
            line_identifications := ids }) := by
  have hne : counts ≠ [] :=
    identifyLinesAux_identified_ne identifier (linesOf body) [] 0 ids counts total
      hline haux
  obtain ⟨⟨lab, cnt⟩, hmax⟩ := maxByVal_of_ne hne
  refine ⟨lab, cnt, maxByVal_mem hmax, maxByVal_le hmax, ?_⟩
  rw [process_record, haux]
  dsimp only
  rw [hmax]

/-- Claim C7: a record in which no line yields an identification produces
no document, and the shard pipeline keeps every other record's output
unchanged — nothing is emitted for that record. -/
theorem unidentifiable_record_dropped
    (identifier : String → Except Error (Option Identification)) (body : String)
    (h : ∀ l ∈ linesOf body, identifier l = .ok none) :
    process_record identifier body = .ok none ∧
    ∀ rs1 rs2, processRecords identifier (rs1 ++ body :: rs2)
      = processRecords identifier rs1 ++ processRecords identifier rs2 := by
  have hpr : process_record identifier body = .ok none := by
    rw [process_record, identifyLinesAux_all_none identifier (linesOf body) [] 0 h]
    rfl
  refine ⟨hpr, fun rs1 rs2 => ?_⟩
  rw [processRecords_append, processRecords_cons_none]
  rw [hpr]
  rfl

/-- Claim C8: a hard identifier error on any line makes `process_record`
return an error, and the shard pipeline drops that record while the other
records' output is unchanged. -/
theorem hard_error_drops_record
    (identifier : String → Except Error (Option Identification)) (body : String)
    (h : ∃ l ∈ linesOf body, ∃ e, identifier l = .error e) :
    (∃ e, process_record identifier body = .error e) ∧
    ∀ rs1 rs2, processRecords identifier (rs1 ++ body :: rs2)
      = processRecords identifier rs1 ++ processRecords identifier rs2 := by
  obtain ⟨e, he⟩ := identifyLinesAux_error identifier (linesOf body) [] 0 h
  have hpr : process_record identifier body = .error e := by
    rw [process_record, he]
  refine ⟨⟨e, hpr⟩, fun rs1 rs2 => ?_⟩
  rw [processRecords_append, processRecords_cons_none]
  rw [hpr]
  rfl

/-- Claim C9: `sort_by_lang` maps every language to exactly the documents
whose document-level identification label is that language, in their
input order. -/
theorem sort_by_lang_groups (documents : List Document) (lang : String) :
    lookupLang (sort_by_lang documents) lang
      = documents.filter (fun d => d.identification.label == lang) := by
  have key : ∀ (docs : List Document) (acc : List (String × List Document)),
      lookupLang (docs.foldl (fun a d => addToLang a d.identification.label d) acc) lang
        = lookupLang acc lang
          ++ docs.filter (fun d => d.identification.label == lang) := by
    intro docs
    induction docs with
    | nil => intro acc; simp
    | cons d ds ih =>
      intro acc
      rw [List.foldl_cons, ih]
      have hstep : ∀ (a : List (String × List Document)),
          lookupLang (addToLang a d.identification.label d) lang
            = lookupLang a lang
              ++ (if d.identification.label = lang then [d] else []) := by
        intro a
        induction a with
        | nil =>
          by_cases hq : d.identification.label = lang <;>
            simp [addToLang, lookupLang, hq]
        | cons e rest ihe =>
          obtain ⟨el, eds⟩ := e
          by_cases h1 : el = d.identification.label
          · subst h1
            by_cases h2 : d.identification.label = lang
            · simp [addToLang, lookupLang, h2]
            · simp [addToLang, lookupLang, h2]
          · by_cases h2 : el = lang
            · subst h2
              have h3 : ¬(d.identification.label = el) := fun hc => h1 hc.symm
              simp [addToLang, lookupLang, h1, h3]
            · simp [addToLang, lookupLang, h1, h2, ihe]
      rw [hstep]
      by_cases hq : d.identification.label = lang
      · simp [hq, List.filter_cons]
      · simp [hq, List.filter_cons]
  have := key documents []
  simpa [sort_by_lang, lookupLang] using this

/-- Claim C6 witness: on the record `aa\nb` under `idFr`, the document is
French with confidence 2/2. -/
theorem process_record_picks_max_language_witness :
    ∃ (lab : String) (cnt : Nat),
      (lab, cnt) ∈ [("fr", 2)] ∧ (∀ x ∈ [("fr", 2)], x.2 ≤ cnt) ∧
      process_record idFr "aa\nb" =
        .ok (some
          { content := "aa\nb"
            identification := { label := lab, prob := (cnt : ℚ) / ((2 : Nat) : ℚ) }
            line_identifications := [some { label := "fr", prob := 1 }, none] }) :=
  process_record_picks_max_language idFr "aa\nb"
    [some { label := "fr", prob := 1 }, none] [("fr", 2)] 2
    rfl ⟨"aa", by decide, { label := "fr", prob := 1 }, rfl⟩

/-- Claim C7 witness: the all-unidentifiable record `xx\nyy` yields no
document and leaves its neighbours' output unchanged. -/
theorem unidentifiable_record_dropped_witness :
    process_record idNone "xx\nyy" = .ok none ∧
    processRecords idNone (["a"] ++ "xx\nyy" :: ["b"])
      = processRecords idNone ["a"] ++ processRecords idNone ["b"] :=
  ⟨(unidentifiable_record_dropped idNone "xx\nyy" (fun _ _ => rfl)).1,
   (unidentifiable_record_dropped idNone "xx\nyy" (fun _ _ => rfl)).2 ["a"] ["b"]⟩

/-- Claim C8 witness: the record `good\nbad` hits the hard identifier
error, is dropped, and its neighbours' output is unchanged. -/
theorem hard_error_drops_record_witness :
    (∃ e, process_record idErr "good\nbad" = .error e) ∧
    processRecords idErr (["x"] ++ "good\nbad" :: ["y"])
      = processRecords idErr ["x"] ++ processRecords idErr ["y"] :=
  ⟨(hard_error_drops_record idErr "good\nbad"
      ⟨"bad", by decide, Error.custom "model failure", rfl⟩).1,
   (hard_error_drops_record idErr "good\nbad"
      ⟨"bad", by decide, Error.custom "model failure", rfl⟩).2 ["x"] ["y"]⟩

end Ungoliant
